import Mathlib

/-!
Verification of the user-mark tile index of `drape_frontend/user_mark_generator.cpp`.

The C++ class `df::UserMarkGenerator` owns, per group id, a mark collection
(`m_marks`), a line collection (`m_lines`), a visibility set
(`m_groupsVisibility`) and a two-level index `m_marksIndex` mapping
`TileKey -> GroupID -> IndexesCollection`.  We embed the class shallowly:

* `std::map` / `std::set` members become association lists / lists.  The C++
  maps iterate in ascending key order while our association lists iterate in
  insertion order; no property proved below observes the iteration order of
  either container, only per-key contents and multiset-of-flushes facts.
* `GetTileKeyByPoint` and `scales::GetUpperScale()` are external collaborators
  (they live outside the translated unit), so every operation is parametrised
  by `tileOf : Point → ℕ → TileKey` and `upper : ℕ`.
* `CacheUserMarks` is external as well; the payload it would build is recorded
  as the triple of arguments the generator passes to it.
* Dereferencing `*m_marks[groupId]` when `groupId` has no mark collection
  dereferences a null `drape_ptr`; `generate` records this as an abnormal
  termination flag (`false` in the second component) and keeps the flushes
  that already happened before the fault.
-/

set_option linter.unusedSectionVars false
set_option linter.unusedVariables false

namespace UserMarkGen

abbrev GroupID := ℕ

/-- Pivot coordinates are opaque to the generator (only ever passed to the
external tile-addressing utility), so a point is modelled as an opaque id. -/
abbrev Point := ℕ

/-- `df::TileKey`; opaque to the generator, produced by `GetTileKeyByPoint`. -/
abbrev TileKey := ℕ × ℕ

/-- One element of `UserMarksRenderCollection`: only the pivot is read by the
generator (all other render params are opaque payload). -/
structure UserMark where
  pivot : Point
deriving DecidableEq

/-- One element of `UserLinesRenderCollection`: the generator reads only
`m_points`. -/
structure UserLine where
  points : List Point
deriving DecidableEq

/-- `df::IndexesCollection`: the per-(tile, group) record. -/
structure IndexesCollection where
  markIndexes : List ℕ
  lineIndexes : List ℕ
deriving DecidableEq

def emptyIC : IndexesCollection := ⟨[], []⟩

/-- `MarkIndexesGroups` = `map<GroupID, drape_ptr<IndexesCollection>>`. -/
abbrev MarkIndexesGroups := List (GroupID × IndexesCollection)

/-- `MarksIndex` = `map<TileKey, drape_ptr<MarkIndexesGroups>>`. -/
abbrev MarksIndex := List (TileKey × MarkIndexesGroups)

/-- First-match lookup in an association list (`std::map::find`). -/
def alook {K V : Type} [DecidableEq K] (k : K) : List (K × V) → Option V
  | [] => none
  | e :: rest => if e.1 = k then some e.2 else alook k rest

/-- `std::map::erase(key)`. -/
def aerase {K V : Type} [DecidableEq K] (k : K) (l : List (K × V)) : List (K × V) :=
  l.filter (fun e => decide (e.1 ≠ k))

/-- `std::map::insert(make_pair(k, v))`: inserts only when the key is absent;
when the key is present the map keeps the old value and the argument is
discarded. -/
def ainsertNew {K V : Type} [DecidableEq K] (k : K) (v : V) (l : List (K × V)) :
    List (K × V) :=
  if (alook k l).isSome then l else l ++ [(k, v)]

/-- Modify the entry of `k` in place when present; do nothing when absent
(`find` followed by mutation through the iterator). -/
def amodify {K V : Type} [DecidableEq K] (k : K) (f : V → V) :
    List (K × V) → List (K × V)
  | [] => []
  | e :: rest => if e.1 = k then (e.1, f e.2) :: rest else e :: amodify k f rest

/-- `std::set` membership-based insert. -/
def sinsert (g : GroupID) (l : List GroupID) : List GroupID :=
  if g ∈ l then l else l ++ [g]

/-- The mutable state of `df::UserMarkGenerator` (minus the flush callback,
which is carried separately by `Generator`). -/
structure State where
  marks : List (GroupID × List UserMark)
  lines : List (GroupID × List UserLine)
  vis : List GroupID
  marksIndex : MarksIndex
deriving DecidableEq

def initState : State := ⟨[], [], [], []⟩

section Ops

variable (tileOf : Point → ℕ → TileKey) (upper : ℕ)

/-- The zoom levels `1 .. scales::GetUpperScale()` walked by both rebuild
loops. -/
def zoomRange : List ℕ := (List.range upper).map (· + 1)

/-- The first loop of `UpdateMarksIndex`: for every tile entry, find the
group and clear its `m_markIndexes` when present. -/
def clearGroupMarks (g : GroupID) (idx : MarksIndex) : MarksIndex :=
  idx.map (fun te => (te.1, amodify g (fun e => { e with markIndexes := [] }) te.2))

/-- The first loop of `UpdateLinesIndex`. -/
def clearGroupLines (g : GroupID) (idx : MarksIndex) : MarksIndex :=
  idx.map (fun te => (te.1, amodify g (fun e => { e with lineIndexes := [] }) te.2))

/-- `GetIndexesCollection` at group level: find the group, inserting a fresh
empty `IndexesCollection` when absent, and apply `f` to it. -/
def updGroup (g : GroupID) (f : IndexesCollection → IndexesCollection) :
    MarkIndexesGroups → MarkIndexesGroups
  | [] => [(g, f emptyIC)]
  | ge :: rest => if ge.1 = g then (ge.1, f ge.2) :: rest else ge :: updGroup g f rest

/-- `GetIndexesCollection` followed by a mutation `f` of the found/created
`IndexesCollection`. -/
def updEntry (t : TileKey) (g : GroupID) (f : IndexesCollection → IndexesCollection) :
    MarksIndex → MarksIndex
  | [] => [(t, [(g, f emptyIC)])]
  | te :: rest =>
    if te.1 = t then (te.1, updGroup g f te.2) :: rest else te :: updEntry t g f rest

/-- `groupIndexes->m_markIndexes.push_back(markIndex)`. -/
def addMark (t : TileKey) (g : GroupID) (i : ℕ) (idx : MarksIndex) : MarksIndex :=
  updEntry t g (fun e => { e with markIndexes := e.markIndexes ++ [i] }) idx

/-- `groupIndexes->m_lineIndexes.push_back(lineIndex)`. -/
def addLine (t : TileKey) (g : GroupID) (j : ℕ) (idx : MarksIndex) : MarksIndex :=
  updEntry t g (fun e => { e with lineIndexes := e.lineIndexes ++ [j] }) idx

/-- `CleanIndex`: first erase tile entries whose group map is empty, then — in
a second pass over the survivors — erase group entries whose two position
lists are both empty.  The pass order is exactly the source's. -/
def cleanIndex (idx : MarksIndex) : MarksIndex :=
  (idx.filter (fun te => !te.2.isEmpty)).map
    (fun te => (te.1, te.2.filter
      (fun ge => !(ge.2.markIndexes.isEmpty && ge.2.lineIndexes.isEmpty))))

def dummyMark : UserMark := ⟨0⟩

def dummyLine : UserLine := ⟨[]⟩

/-- `UserMarkGenerator::UpdateMarksIndex`.  Note the early return (without
`CleanIndex`) when the group has no mark collection. -/
def updateMarksIndex (g : GroupID) (s : State) : State :=
  let idx := clearGroupMarks g s.marksIndex
  match alook g s.marks with
  | none => { s with marksIndex := idx }
  | some marks =>
    let idx2 := (List.range marks.length).foldl (fun acc i =>
      (zoomRange upper).foldl (fun acc2 z =>
        addMark (tileOf (marks.getD i dummyMark).pivot z) g i acc2) acc) idx
    { s with marksIndex := cleanIndex idx2 }

/-- `UserMarkGenerator::UpdateLinesIndex`.  The C++ collects the tiles of a
line's vertices in a `std::set` before inserting; we take `dedup` of the
vertex-tile list, which has the same membership (internal iteration order of
the set affects only the interleaving of appends to distinct per-tile lists,
which no stored list records). -/
def updateLinesIndex (g : GroupID) (s : State) : State :=
  let idx := clearGroupLines g s.marksIndex
  match alook g s.lines with
  | none => { s with marksIndex := idx }
  | some lines =>
    let idx2 := (List.range lines.length).foldl (fun acc j =>
      (zoomRange upper).foldl (fun acc2 z =>
        (((lines.getD j dummyLine).points.map (fun p => tileOf p z)).dedup).foldl
          (fun acc3 t => addLine t g j acc3) acc2) acc) idx
    { s with marksIndex := cleanIndex idx2 }

/-- `UserMarkGenerator::SetUserMarks`. -/
def setUserMarks (g : GroupID) (marks : List UserMark) (s : State) : State :=
  updateMarksIndex tileOf upper g { s with marks := ainsertNew g marks s.marks }

/-- `UserMarkGenerator::SetUserLines`. -/
def setUserLines (g : GroupID) (lines : List UserLine) (s : State) : State :=
  updateLinesIndex tileOf upper g { s with lines := ainsertNew g lines s.lines }

/-- `UserMarkGenerator::ClearUserMarks`. -/
def clearUserMarks (g : GroupID) (s : State) : State :=
  updateLinesIndex tileOf upper g (updateMarksIndex tileOf upper g
    { s with vis := s.vis.filter (fun x => decide (x ≠ g)),
             marks := aerase g s.marks,
             lines := aerase g s.lines })

/-- `UserMarkGenerator::SetGroupVisibility`. -/
def setGroupVisibility (g : GroupID) (isVisible : Bool) (s : State) : State :=
  if isVisible then { s with vis := sinsert g s.vis }
  else { s with vis := s.vis.filter (fun x => decide (x ≠ g)) }

/-- The arguments the generator hands to the external `CacheUserMarks`
collaborator for one group (the payload whose ownership passes to the sink). -/
structure Payload where
  tile : TileKey
  renderParams : List UserMark
  indexes : List ℕ
deriving DecidableEq

/-- The per-group loop body of `GenerateUserMarksGeometry`, in source order:
bind `renderParams = *m_marks[groupId]` (a null dereference — abnormal stop,
flag `false` — when the group has no mark collection), then skip invisible
groups, then cache and flush.  The first component collects the flush calls
that happened, the second is `true` iff the loop ran to completion. -/
def goGroups (s : State) (t : TileKey) :
    MarkIndexesGroups → List (GroupID × Payload) × Bool
  | [] => ([], true)
  | ge :: rest =>
    match alook ge.1 s.marks with
    | none => ([], false)
    | some renderParams =>
      if ge.1 ∈ s.vis then
        let r := goGroups s t rest
        ((ge.1, ⟨t, renderParams, ge.2.markIndexes⟩) :: r.1, r.2)
      else goGroups s t rest

/-- `UserMarkGenerator::GenerateUserMarksGeometry`: the list of sink
invocations `(groupId, payload)` it performs on `tileKey`, plus a normal-
termination flag. -/
def generate (s : State) (t : TileKey) : List (GroupID × Payload) × Bool :=
  match alook t s.marksIndex with
  | none => ([], true)
  | some gl => goGroups s t gl

/-- The four mutating operations, for quantifying over call sequences. -/
inductive Op where
  | replaceMarks (g : GroupID) (marks : List UserMark)
  | replaceLines (g : GroupID) (lines : List UserLine)
  | clear (g : GroupID)
  | setVis (g : GroupID) (visible : Bool)

def applyOp (s : State) : Op → State
  | .replaceMarks g m => setUserMarks tileOf upper g m s
  | .replaceLines g l => setUserLines tileOf upper g l s
  | .clear g => clearUserMarks tileOf upper g s
  | .setVis g b => setGroupVisibility g b s

def applyOps (s : State) (ops : List Op) : State :=
  ops.foldl (applyOp tileOf upper) s

/-- `df::UserMarkGenerator` proper: the stored flush sink plus the state.
`α` is the sink's (opaque) result type. -/
structure Generator (α : Type) where
  flushFn : GroupID → Payload → α
  st : State

/-- The constructor.  `ASSERT(m_flushFn != nullptr, ())`: with a null sink the
construction is a fatal precondition failure and no generator is produced. -/
def mkGenerator {α : Type} (f : Option (GroupID → Payload → α)) :
    Option (Generator α) :=
  match f with
  | none => none
  | some fn => some ⟨fn, initState⟩

def applyOpG {α : Type} (gen : Generator α) (op : Op) : Generator α :=
  { gen with st := applyOp tileOf upper gen.st op }

/-- `GenerateUserMarksGeometry` at generator level: every flush goes through
the stored `m_flushFn`. -/
def generateFlush {α : Type} (gen : Generator α) (t : TileKey) : List α × Bool :=
  ((generate gen.st t).1.map (fun e => gen.flushFn e.1 e.2), (generate gen.st t).2)

end Ops

/-- Accessor: the `IndexesCollection` stored for `(t, g)`, `emptyIC` when the
entry is absent. -/
def entryAt (idx : MarksIndex) (t : TileKey) (g : GroupID) : IndexesCollection :=
  ((alook t idx).bind (fun gm => alook g gm)).getD emptyIC

/-- Accessor: the mark-position list stored for `(t, g)` (empty when the
entry is absent). -/
def markIdxAt (idx : MarksIndex) (t : TileKey) (g : GroupID) : List ℕ :=
  (entryAt idx t g).markIndexes

/-- Accessor: the line-position list stored for `(t, g)`. -/
def lineIdxAt (idx : MarksIndex) (t : TileKey) (g : GroupID) : List ℕ :=
  (entryAt idx t g).lineIndexes

/-- Keys of an association list are pairwise distinct (always true of a
`std::map`; our operations preserve it). -/
def NodupKeys {K V : Type} (l : List (K × V)) : Prop := (l.map Prod.fst).Nodup

instance {K V : Type} [DecidableEq K] (l : List (K × V)) :
    Decidable (NodupKeys l) := by unfold NodupKeys; infer_instance

/-- Well-formedness of the two-level index: distinct tile keys, and distinct
group keys inside every tile entry. -/
def WFIdx (idx : MarksIndex) : Prop :=
  NodupKeys idx ∧ ∀ te ∈ idx, NodupKeys te.2

instance (idx : MarksIndex) : Decidable (WFIdx idx) := by
  unfold WFIdx; infer_instance

def WF (s : State) : Prop := WFIdx s.marksIndex

instance (s : State) : Decidable (WF s) := by unfold WF; infer_instance

/-- A concrete, zoom-faithful tile-addressing function used for witnesses and
counterexamples (the real `GetTileKeyByPoint` also embeds the zoom level in
the key). -/
def tc : Point → ℕ → TileKey := fun p z => (p, z)

/-- Empty generator state with group 0 made visible. -/
def sVis0 : State := setGroupVisibility 0 true initState

/-- Two successive whole-collection replacements for group 0 (pivot 0, then
pivot 5), group 0 visible. -/
def sC1 : State :=
  setUserMarks tc 1 0 [⟨5⟩] (setUserMarks tc 1 0 [⟨0⟩] sVis0)

/-- `ReplaceMarks(0, [mark at 0])` followed by `Clear(0)`. -/
def sC2 : State := clearUserMarks tc 1 0 (setUserMarks tc 1 0 [⟨0⟩] initState)

/-- `sC2` followed by `ReplaceMarks(1, [mark at 5])` (runs `CleanIndex`). -/
def sC2b : State := setUserMarks tc 1 1 [⟨5⟩] sC2

/-- `sC2` followed by `SetVisibility(0, true)`. -/
def sC3 : State := setGroupVisibility 0 true sC2

/-- A group indexed solely through lines: `ReplaceLines(0, [line [0]])`. -/
def sC10 : State := setUserLines tc 1 0 [⟨[0]⟩] initState

/-- `sC10` with group 0 visible. -/
def sC4 : State := setGroupVisibility 0 true sC10

/-- Lines-only group 0 and marked, visible group 1 sharing tile `(0, 1)`. -/
def sC5 : State := setGroupVisibility 1 true (setUserMarks tc 1 1 [⟨0⟩] sC10)

/-- Replace every stored line-position list in the index, leaving tiles,
groups and mark-position lists untouched (used to state that `Generate`
never reads line data). -/
def overwriteLineIdx (f : TileKey → GroupID → List ℕ) (s : State) : State :=
  { s with marksIndex := s.marksIndex.map (fun te => (te.1, te.2.map
      (fun ge => (ge.1, { ge.2 with lineIndexes := f te.1 ge.1 })))) }

section AListLemmas

variable {K V W : Type} [DecidableEq K]

theorem alook_eq_none_iff (k : K) (l : List (K × V)) :
    alook k l = none ↔ ∀ e ∈ l, e.1 ≠ k := by
  induction l with
  | nil => simp [alook]
  | cons e rest ih => by_cases h : e.1 = k <;> simp [alook, h, ih]

theorem alook_mem {k : K} {v : V} {l : List (K × V)} (h : alook k l = some v) :
    (k, v) ∈ l := by
  induction l with
  | nil => simp [alook] at h
  | cons e rest ih =>
    by_cases he : e.1 = k
    · simp only [alook, he, if_pos] at h
      obtain ⟨rfl⟩ := h
      have h2 : (k, e.2) = e := by rw [← he]
      exact h2 ▸ List.mem_cons_self e rest
    · simp only [alook, he, if_neg, not_false_iff] at h
      exact List.mem_cons_of_mem _ (ih h)

theorem alook_append (k : K) (l₁ l₂ : List (K × V)) :
    alook k (l₁ ++ l₂) =
      match alook k l₁ with
      | some v => some v
      | none => alook k l₂ := by
  induction l₁ with
  | nil => simp [alook]
  | cons e rest ih => by_cases h : e.1 = k <;> simp [alook, h, ih]

theorem alook_append_self (k : K) (v : V) (l : List (K × V))
    (h : alook k l = none) : alook k (l ++ [(k, v)]) = some v := by
  rw [alook_append, h]
  simp [alook]

theorem alook_aerase_self (k : K) (l : List (K × V)) :
    alook k (aerase k l) = none := by
  rw [alook_eq_none_iff]
  intro e he
  have := List.of_mem_filter he
  simpa using this

theorem aerase_of_absent (k : K) (l : List (K × V))
    (h : ∀ e ∈ l, e.1 ≠ k) : aerase k l = l := by
  unfold aerase
  rw [List.filter_eq_self]
  intro e he
  simpa using h e he

theorem aerase_idem (k : K) (l : List (K × V)) :
    aerase k (aerase k l) = aerase k l := by
  apply aerase_of_absent
  intro e he
  have := List.of_mem_filter he
  simpa using this

theorem alook_map_snd (F : V → W) (l : List (K × V)) (k : K) :
    alook k (l.map (fun e => (e.1, F e.2))) = (alook k l).map F := by
  induction l with
  | nil => simp [alook]
  | cons e rest ih => by_cases h : e.1 = k <;> simp [alook, h, ih]

theorem alook_amodify_self (k : K) (f : V → V) (l : List (K × V)) :
    alook k (amodify k f l) = (alook k l).map f := by
  induction l with
  | nil => simp [alook, amodify]
  | cons e rest ih => by_cases h : e.1 = k <;> simp [alook, amodify, h, ih]

theorem alook_amodify_ne {k k' : K} (h : k' ≠ k) (f : V → V) (l : List (K × V)) :
    alook k' (amodify k f l) = alook k' l := by
  induction l with
  | nil => simp [alook, amodify]
  | cons e rest ih =>
    by_cases he : e.1 = k
    · have hkk' : ¬k = k' := fun hh => h hh.symm
      simp [alook, amodify, he, hkk', ih]
    · by_cases he' : e.1 = k' <;> simp [alook, amodify, he, he', ih, h]

theorem amodify_of_absent (k : K) (f : V → V) (l : List (K × V))
    (h : ∀ e ∈ l, e.1 ≠ k) : amodify k f l = l := by
  induction l with
  | nil => rfl
  | cons e rest ih =>
    have he : e.1 ≠ k := h e (List.mem_cons_self e rest)
    simp only [amodify, if_neg he]
    rw [ih (fun e' he' => h e' (List.mem_cons_of_mem _ he'))]

theorem keys_amodify (k : K) (f : V → V) (l : List (K × V)) :
    (amodify k f l).map Prod.fst = l.map Prod.fst := by
  induction l with
  | nil => rfl
  | cons e rest ih => by_cases h : e.1 = k <;> simp [amodify, h, ih]

theorem amodify_amodify (k : K) (f f' : V → V) (l : List (K × V)) :
    amodify k f (amodify k f' l) = amodify k (f ∘ f') l := by
  induction l with
  | nil => rfl
  | cons e rest ih => by_cases h : e.1 = k <;> simp [amodify, h, ih]

theorem amodify_congr (k : K) (f f' : V → V) (l : List (K × V))
    (h : ∀ v, f v = f' v) : amodify k f l = amodify k f' l := by
  induction l with
  | nil => rfl
  | cons e rest ih => by_cases he : e.1 = k <;> simp [amodify, he, ih, h]

theorem nodupKeys_filter (p : K × V → Bool) {l : List (K × V)}
    (h : NodupKeys l) : NodupKeys (l.filter p) := by
  have hs : (l.filter p).Sublist l := List.filter_sublist l
  exact List.Nodup.sublist (hs.map Prod.fst) h

theorem nodupKeys_map_snd (F : V → W) {l : List (K × V)} (h : NodupKeys l) :
    NodupKeys (l.map fun e => (e.1, F e.2)) := by
  unfold NodupKeys at h ⊢
  rw [List.map_map]
  exact h

theorem alook_filter_nodup (p : K × V → Bool) {l : List (K × V)}
    (h : NodupKeys l) (k : K) :
    alook k (l.filter p) =
      (alook k l).bind (fun v => if p (k, v) then some v else none) := by
  induction l with
  | nil => simp [alook]
  | cons e rest ih =>
    have hnd : NodupKeys rest := (List.nodup_cons.mp h).2
    have hnm : e.1 ∉ rest.map Prod.fst := (List.nodup_cons.mp h).1
    by_cases he : e.1 = k
    · have hke : (k, e.2) = e := by rw [← he]
      have hrest : alook k (rest.filter p) = none := by
        rw [alook_eq_none_iff]
        intro e' he'
        have hmem := List.mem_of_mem_filter he'
        intro hk
        have h3 : e.1 ∈ rest.map Prod.fst := by
          rw [he, ← hk]
          exact List.mem_map_of_mem Prod.fst hmem
        exact hnm h3
      by_cases hp : p e = true
      · rw [List.filter_cons, if_pos hp]
        show (if e.1 = k then some e.2 else alook k (rest.filter p))
            = (if e.1 = k then some e.2 else alook k rest).bind
              (fun v => if p (k, v) = true then some v else none)
        rw [if_pos he, if_pos he, Option.some_bind, hke, if_pos hp]
      · rw [List.filter_cons, if_neg hp, hrest]
        show (none : Option V)
            = (if e.1 = k then some e.2 else alook k rest).bind
              (fun v => if p (k, v) = true then some v else none)
        rw [if_pos he, Option.some_bind, hke, if_neg hp]
    · by_cases hp : p e = true <;> simp [alook, List.filter_cons, hp, he, ih hnd]

end AListLemmas

section UpdLemmas

theorem alook_updGroup_self (g : GroupID) (f : IndexesCollection → IndexesCollection)
    (l : MarkIndexesGroups) :
    alook g (updGroup g f l) = some (f ((alook g l).getD emptyIC)) := by
  induction l with
  | nil => simp [updGroup, alook]
  | cons ge rest ih => by_cases h : ge.1 = g <;> simp [updGroup, alook, h, ih]

theorem alook_updGroup_ne {g g' : GroupID} (h : g' ≠ g)
    (f : IndexesCollection → IndexesCollection) (l : MarkIndexesGroups) :
    alook g' (updGroup g f l) = alook g' l := by
  induction l with
  | nil => simp [updGroup, alook, Ne.symm h]
  | cons ge rest ih =>
    by_cases hge : ge.1 = g
    · have hne : ¬ge.1 = g' := by rw [hge]; exact Ne.symm h
      simp [updGroup, alook, hge, hne, ih, Ne.symm h]
    · by_cases hge' : ge.1 = g' <;> simp [updGroup, alook, hge, hge', ih, h]

theorem keys_updGroup (g : GroupID) (f : IndexesCollection → IndexesCollection)
    (l : MarkIndexesGroups) :
    (updGroup g f l).map Prod.fst = l.map Prod.fst
    ∨ ((updGroup g f l).map Prod.fst = l.map Prod.fst ++ [g] ∧ alook g l = none) := by
  induction l with
  | nil => right; exact ⟨rfl, rfl⟩
  | cons ge rest ih =>
    by_cases h : ge.1 = g
    · left; simp [updGroup, h]
    · rcases ih with h1 | ⟨h1, h2⟩
      · left; simp [updGroup, h, h1]
      · right
        refine ⟨?_, ?_⟩
        · simp [updGroup, h, h1]
        · simp [alook, h, h2]

theorem nodupKeys_updGroup (g : GroupID) (f : IndexesCollection → IndexesCollection)
    {l : MarkIndexesGroups} (h : NodupKeys l) : NodupKeys (updGroup g f l) := by
  rcases keys_updGroup g f l with h1 | ⟨h1, h2⟩
  · unfold NodupKeys
    rw [h1]
    exact h
  · unfold NodupKeys
    rw [h1, List.nodup_append]
    refine ⟨h, List.nodup_singleton g, ?_⟩
    intro a ha hb
    rw [List.mem_singleton] at hb
    obtain ⟨e, he, rfl⟩ := List.mem_map.mp ha
    exact ((alook_eq_none_iff g l).mp h2 e he) hb

theorem alook_updEntry_self (t : TileKey) (g : GroupID)
    (f : IndexesCollection → IndexesCollection) (idx : MarksIndex) :
    alook t (updEntry t g f idx) = some (updGroup g f ((alook t idx).getD [])) := by
  induction idx with
  | nil => simp [updEntry, alook, updGroup]
  | cons te rest ih => by_cases h : te.1 = t <;> simp [updEntry, alook, h, ih]

theorem alook_updEntry_ne {t t' : TileKey} (h : t' ≠ t) (g : GroupID)
    (f : IndexesCollection → IndexesCollection) (idx : MarksIndex) :
    alook t' (updEntry t g f idx) = alook t' idx := by
  induction idx with
  | nil => simp [updEntry, alook, Ne.symm h]
  | cons te rest ih =>
    by_cases hte : te.1 = t
    · have hne : ¬te.1 = t' := by rw [hte]; exact Ne.symm h
      simp [updEntry, alook, hte, hne, ih, Ne.symm h]
    · by_cases hte' : te.1 = t' <;> simp [updEntry, alook, hte, hte', ih, h]

theorem keys_updEntry (t : TileKey) (g : GroupID)
    (f : IndexesCollection → IndexesCollection) (idx : MarksIndex) :
    (updEntry t g f idx).map Prod.fst = idx.map Prod.fst
    ∨ ((updEntry t g f idx).map Prod.fst = idx.map Prod.fst ++ [t]
        ∧ alook t idx = none) := by
  induction idx with
  | nil => right; exact ⟨rfl, rfl⟩
  | cons te rest ih =>
    by_cases h : te.1 = t
    · left; simp [updEntry, h]
    · rcases ih with h1 | ⟨h1, h2⟩
      · left; simp [updEntry, h, h1]
      · right
        refine ⟨?_, ?_⟩
        · simp [updEntry, h, h1]
        · simp [alook, h, h2]

theorem mem_updEntry {t : TileKey} {g : GroupID}
    {f : IndexesCollection → IndexesCollection} {idx : MarksIndex}
    (te' : TileKey × MarkIndexesGroups) (hmem : te' ∈ updEntry t g f idx) :
    te' ∈ idx ∨ (∃ gm, te' = (t, updGroup g f gm) ∧ alook t idx = some gm)
    ∨ te' = (t, [(g, f emptyIC)]) := by
  induction idx with
  | nil =>
    simp only [updEntry, List.mem_singleton] at hmem
    right; right; exact hmem
  | cons te rest ih =>
    by_cases h : te.1 = t
    · simp only [updEntry, if_pos h, List.mem_cons] at hmem
      rcases hmem with h1 | h1
      · right; left
        refine ⟨te.2, by rw [h1, h], ?_⟩
        simp [alook, h]
      · left; exact List.mem_cons_of_mem _ h1
    · simp only [updEntry, if_neg h, List.mem_cons] at hmem
      rcases hmem with h1 | h1
      · left; exact h1 ▸ List.mem_cons_self te rest
      · rcases ih h1 with h2 | ⟨gm, h2, h3⟩ | h2
        · left; exact List.mem_cons_of_mem _ h2
        · right; left
          exact ⟨gm, h2, by simp [alook, h, h3]⟩
        · right; right; exact h2

theorem WFIdx_updEntry (t : TileKey) (g : GroupID)
    (f : IndexesCollection → IndexesCollection) {idx : MarksIndex}
    (h : WFIdx idx) : WFIdx (updEntry t g f idx) := by
  constructor
  · rcases keys_updEntry t g f idx with h1 | ⟨h1, h2⟩
    · unfold NodupKeys
      rw [h1]
      exact h.1
    · unfold NodupKeys
      rw [h1, List.nodup_append]
      refine ⟨h.1, List.nodup_singleton t, ?_⟩
      intro a ha hb
      rw [List.mem_singleton] at hb
      obtain ⟨e, he, rfl⟩ := List.mem_map.mp ha
      exact ((alook_eq_none_iff t idx).mp h2 e he) hb
  · intro te' hmem
    rcases mem_updEntry te' hmem with h1 | ⟨gm, rfl, h1⟩ | rfl
    · exact h.2 te' h1
    · exact nodupKeys_updGroup g f (h.2 _ (alook_mem h1))
    · exact List.nodup_singleton g

theorem entryAt_updEntry_self (t : TileKey) (g : GroupID)
    (f : IndexesCollection → IndexesCollection) (idx : MarksIndex) :
    entryAt (updEntry t g f idx) t g = f (entryAt idx t g) := by
  unfold entryAt
  rw [alook_updEntry_self]
  cases hti : alook t idx with
  | none => simp [alook_updGroup_self, alook]
  | some gm => simp [alook_updGroup_self]

theorem entryAt_updEntry_ne (t : TileKey) (g : GroupID) {t' : TileKey}
    {g' : GroupID} (h : t' ≠ t ∨ g' ≠ g)
    (f : IndexesCollection → IndexesCollection) (idx : MarksIndex) :
    entryAt (updEntry t g f idx) t' g' = entryAt idx t' g' := by
  by_cases ht : t' = t
  · have hg : g' ≠ g := by
      rcases h with h | h
      · exact absurd ht h
      · exact h
    subst ht
    unfold entryAt
    rw [alook_updEntry_self]
    cases hti : alook t' idx with
    | none => simp [alook_updGroup_ne hg, alook, Ne.symm hg]
    | some gm => simp [alook_updGroup_ne hg]
  · unfold entryAt
    rw [alook_updEntry_ne ht]

theorem entryAt_addMark_self (t : TileKey) (g : GroupID) (i : ℕ) (idx : MarksIndex) :
    entryAt (addMark t g i idx) t g
      = { entryAt idx t g with
          markIndexes := (entryAt idx t g).markIndexes ++ [i] } :=
  entryAt_updEntry_self t g _ idx

theorem markIdxAt_addMark_self (t : TileKey) (g : GroupID) (i : ℕ) (idx : MarksIndex) :
    markIdxAt (addMark t g i idx) t g = markIdxAt idx t g ++ [i] := by
  unfold markIdxAt
  rw [entryAt_addMark_self]

theorem markIdxAt_addMark_ne {t t' : TileKey} {g g' : GroupID}
    (h : t' ≠ t ∨ g' ≠ g) (i : ℕ) (idx : MarksIndex) :
    markIdxAt (addMark t g i idx) t' g' = markIdxAt idx t' g' := by
  unfold markIdxAt addMark
  rw [entryAt_updEntry_ne t g h]

theorem entryAt_addLine_self (t : TileKey) (g : GroupID) (j : ℕ) (idx : MarksIndex) :
    entryAt (addLine t g j idx) t g
      = { entryAt idx t g with
          lineIndexes := (entryAt idx t g).lineIndexes ++ [j] } :=
  entryAt_updEntry_self t g _ idx

theorem lineIdxAt_addLine_self (t : TileKey) (g : GroupID) (j : ℕ) (idx : MarksIndex) :
    lineIdxAt (addLine t g j idx) t g = lineIdxAt idx t g ++ [j] := by
  unfold lineIdxAt
  rw [entryAt_addLine_self]

theorem lineIdxAt_addLine_ne {t t' : TileKey} {g g' : GroupID}
    (h : t' ≠ t ∨ g' ≠ g) (j : ℕ) (idx : MarksIndex) :
    lineIdxAt (addLine t g j idx) t' g' = lineIdxAt idx t' g' := by
  unfold lineIdxAt addLine
  rw [entryAt_updEntry_ne t g h]

theorem WFIdx_addMark (t : TileKey) (g : GroupID) (i : ℕ) {idx : MarksIndex}
    (h : WFIdx idx) : WFIdx (addMark t g i idx) :=
  WFIdx_updEntry t g _ h

theorem WFIdx_addLine (t : TileKey) (g : GroupID) (j : ℕ) {idx : MarksIndex}
    (h : WFIdx idx) : WFIdx (addLine t g j idx) :=
  WFIdx_updEntry t g _ h

end UpdLemmas

section ClearCleanLemmas

theorem markIdxAt_addLine (t t' : TileKey) (g g' : GroupID) (j : ℕ)
    (idx : MarksIndex) :
    markIdxAt (addLine t g j idx) t' g' = markIdxAt idx t' g' := by
  by_cases ht : t' = t
  · by_cases hg : g' = g
    · subst ht; subst hg
      unfold markIdxAt
      rw [entryAt_addLine_self]
    · unfold markIdxAt addLine
      rw [entryAt_updEntry_ne t g (Or.inr hg)]
  · unfold markIdxAt addLine
    rw [entryAt_updEntry_ne t g (Or.inl ht)]

theorem lineIdxAt_addMark (t t' : TileKey) (g g' : GroupID) (i : ℕ)
    (idx : MarksIndex) :
    lineIdxAt (addMark t g i idx) t' g' = lineIdxAt idx t' g' := by
  by_cases ht : t' = t
  · by_cases hg : g' = g
    · subst ht; subst hg
      unfold lineIdxAt
      rw [entryAt_addMark_self]
    · unfold lineIdxAt addMark
      rw [entryAt_updEntry_ne t g (Or.inr hg)]
  · unfold lineIdxAt addMark
    rw [entryAt_updEntry_ne t g (Or.inl ht)]

theorem entryAt_clearGroupMarks (g : GroupID) (idx : MarksIndex) (t : TileKey) :
    entryAt (clearGroupMarks g idx) t g
      = { entryAt idx t g with markIndexes := [] } := by
  unfold entryAt clearGroupMarks
  rw [alook_map_snd]
  cases hti : alook t idx with
  | none => simp [emptyIC]
  | some gm =>
    simp only [Option.map_some', Option.some_bind]
    rw [alook_amodify_self]
    cases hg : alook g gm <;> simp [emptyIC]

theorem entryAt_clearGroupMarks_ne (g : GroupID) {g' : GroupID} (h : g' ≠ g)
    (idx : MarksIndex) (t : TileKey) :
    entryAt (clearGroupMarks g idx) t g' = entryAt idx t g' := by
  unfold entryAt clearGroupMarks
  rw [alook_map_snd]
  cases hti : alook t idx with
  | none => simp
  | some gm => simp [alook_amodify_ne h]

theorem markIdxAt_clearGroupMarks (g : GroupID) (idx : MarksIndex) (t : TileKey) :
    markIdxAt (clearGroupMarks g idx) t g = [] := by
  unfold markIdxAt
  rw [entryAt_clearGroupMarks]

theorem entryAt_clearGroupLines (g : GroupID) (idx : MarksIndex) (t : TileKey) :
    entryAt (clearGroupLines g idx) t g
      = { entryAt idx t g with lineIndexes := [] } := by
  unfold entryAt clearGroupLines
  rw [alook_map_snd]
  cases hti : alook t idx with
  | none => simp [emptyIC]
  | some gm =>
    simp only [Option.map_some', Option.some_bind]
    rw [alook_amodify_self]
    cases hg : alook g gm <;> simp [emptyIC]

theorem entryAt_clearGroupLines_ne (g : GroupID) {g' : GroupID} (h : g' ≠ g)
    (idx : MarksIndex) (t : TileKey) :
    entryAt (clearGroupLines g idx) t g' = entryAt idx t g' := by
  unfold entryAt clearGroupLines
  rw [alook_map_snd]
  cases hti : alook t idx with
  | none => simp
  | some gm => simp [alook_amodify_ne h]

theorem lineIdxAt_clearGroupLines (g : GroupID) (idx : MarksIndex) (t : TileKey) :
    lineIdxAt (clearGroupLines g idx) t g = [] := by
  unfold lineIdxAt
  rw [entryAt_clearGroupLines]

theorem WFIdx_clearGroupMarks (g : GroupID) {idx : MarksIndex} (h : WFIdx idx) :
    WFIdx (clearGroupMarks g idx) := by
  constructor
  · exact nodupKeys_map_snd _ h.1
  · intro te' hmem
    obtain ⟨te, hte, rfl⟩ := List.mem_map.mp hmem
    unfold NodupKeys
    rw [keys_amodify]
    exact h.2 te hte

theorem WFIdx_clearGroupLines (g : GroupID) {idx : MarksIndex} (h : WFIdx idx) :
    WFIdx (clearGroupLines g idx) := by
  constructor
  · exact nodupKeys_map_snd _ h.1
  · intro te' hmem
    obtain ⟨te, hte, rfl⟩ := List.mem_map.mp hmem
    unfold NodupKeys
    rw [keys_amodify]
    exact h.2 te hte

theorem entryAt_cleanIndex {idx : MarksIndex} (h : WFIdx idx) (t : TileKey)
    (g : GroupID) :
    entryAt (cleanIndex idx) t g = entryAt idx t g := by
  unfold entryAt cleanIndex
  rw [alook_map_snd, alook_filter_nodup _ h.1]
  cases hti : alook t idx with
  | none => simp
  | some gm =>
    cases gm with
    | nil => simp [alook]
    | cons ge rest =>
      have hnd : NodupKeys (ge :: rest) := h.2 (t, ge :: rest) (alook_mem hti)
      simp only [Option.some_bind, List.isEmpty_cons, Bool.not_false, if_true,
        Option.map_some']
      rw [alook_filter_nodup _ hnd]
      cases hg : alook g (ge :: rest) with
      | none => simp
      | some e =>
        cases e with
        | mk ml ll =>
          cases ml with
          | nil =>
            cases ll with
            | nil => simp [emptyIC]
            | cons b lb => simp
          | cons a la => simp

theorem markIdxAt_cleanIndex {idx : MarksIndex} (h : WFIdx idx) (t : TileKey)
    (g : GroupID) :
    markIdxAt (cleanIndex idx) t g = markIdxAt idx t g := by
  unfold markIdxAt
  rw [entryAt_cleanIndex h]

theorem lineIdxAt_cleanIndex {idx : MarksIndex} (h : WFIdx idx) (t : TileKey)
    (g : GroupID) :
    lineIdxAt (cleanIndex idx) t g = lineIdxAt idx t g := by
  unfold lineIdxAt
  rw [entryAt_cleanIndex h]

theorem WFIdx_cleanIndex {idx : MarksIndex} (h : WFIdx idx) :
    WFIdx (cleanIndex idx) := by
  constructor
  · exact nodupKeys_map_snd _ (nodupKeys_filter _ h.1)
  · intro te' hmem
    obtain ⟨te, hte, rfl⟩ := List.mem_map.mp hmem
    exact nodupKeys_filter _ (h.2 te (List.mem_of_mem_filter hte))

theorem foldl_preserve {α β : Type} {P : α → Prop} {f : α → β → α}
    (H : ∀ a b, P a → P (f a b)) (l : List β) {a : α} (ha : P a) :
    P (l.foldl f a) := by
  induction l generalizing a with
  | nil => exact ha
  | cons b rest ih => exact ih (H a b ha)

end ClearCleanLemmas

section FoldChar

variable (tileOf : Point → ℕ → TileKey) (upper : ℕ)

theorem markIdxAt_zoomFold (p : Point) (g : GroupID) (i : ℕ) (t : TileKey)
    (zs : List ℕ) (idx : MarksIndex) :
    markIdxAt (zs.foldl (fun a z => addMark (tileOf p z) g i a) idx) t g
      = markIdxAt idx t g
        ++ (zs.filter (fun z => decide (tileOf p z = t))).map (fun _ => i) := by
  induction zs generalizing idx with
  | nil => simp
  | cons z rest ih =>
    rw [List.foldl_cons, ih, List.filter_cons]
    by_cases h : tileOf p z = t
    · rw [h, markIdxAt_addMark_self]
      simp [h, List.append_assoc]
    · rw [markIdxAt_addMark_ne (Or.inl (fun hh => h hh.symm))]
      simp [h]

theorem markIdxAt_markFold (M : List UserMark) (g : GroupID) (t : TileKey)
    (is : List ℕ) (idx : MarksIndex) :
    markIdxAt (is.foldl (fun acc i => (zoomRange upper).foldl (fun acc2 z =>
        addMark (tileOf (M.getD i dummyMark).pivot z) g i acc2) acc) idx) t g
      = markIdxAt idx t g ++ is.flatMap (fun i =>
          ((zoomRange upper).filter
            (fun z => decide (tileOf (M.getD i dummyMark).pivot z = t))).map
            (fun _ => i)) := by
  induction is generalizing idx with
  | nil => simp
  | cons i rest ih =>
    rw [List.foldl_cons, ih, markIdxAt_zoomFold, List.flatMap_cons, List.append_assoc]

theorem lineIdxAt_tileFold (g : GroupID) (j : ℕ) (t : TileKey) (ts : List TileKey)
    (hnd : ts.Nodup) (idx : MarksIndex) :
    lineIdxAt (ts.foldl (fun a t' => addLine t' g j a) idx) t g
      = lineIdxAt idx t g ++ if t ∈ ts then [j] else [] := by
  induction ts generalizing idx with
  | nil => simp
  | cons t' rest ih =>
    have hnd' := (List.nodup_cons.mp hnd).2
    have hnm := (List.nodup_cons.mp hnd).1
    rw [List.foldl_cons, ih hnd']
    by_cases h : t' = t
    · subst h
      rw [lineIdxAt_addLine_self]
      simp [hnm, List.append_assoc]
    · have hts : ¬t = t' := fun hh => h hh.symm
      rw [lineIdxAt_addLine_ne (Or.inl hts)]
      simp [List.mem_cons, hts]

theorem lineIdxAt_zoomFold (pts : List Point) (g : GroupID) (j : ℕ) (t : TileKey)
    (zs : List ℕ) (idx : MarksIndex) :
    lineIdxAt (zs.foldl (fun a z => ((pts.map (fun p => tileOf p z)).dedup).foldl
        (fun a2 t' => addLine t' g j a2) a) idx) t g
      = lineIdxAt idx t g
        ++ (zs.filter (fun z => decide (t ∈ pts.map (fun p => tileOf p z)))).map
            (fun _ => j) := by
  induction zs generalizing idx with
  | nil => simp
  | cons z rest ih =>
    rw [List.foldl_cons, ih,
      lineIdxAt_tileFold g j t _ (List.nodup_dedup _) idx, List.filter_cons]
    by_cases h : t ∈ pts.map (fun p => tileOf p z)
    · have hd : t ∈ (pts.map (fun p => tileOf p z)).dedup := List.mem_dedup.mpr h
      simp [h, hd, List.append_assoc]
    · have hd : t ∉ (pts.map (fun p => tileOf p z)).dedup :=
        fun hh => h (List.mem_dedup.mp hh)
      simp [h, hd]

theorem lineIdxAt_lineFold (L : List UserLine) (g : GroupID) (t : TileKey)
    (js : List ℕ) (idx : MarksIndex) :
    lineIdxAt (js.foldl (fun acc j => (zoomRange upper).foldl (fun acc2 z =>
        (((L.getD j dummyLine).points.map (fun p => tileOf p z)).dedup).foldl
          (fun acc3 t' => addLine t' g j acc3) acc2) acc) idx) t g
      = lineIdxAt idx t g ++ js.flatMap (fun j =>
          ((zoomRange upper).filter (fun z =>
            decide (t ∈ (L.getD j dummyLine).points.map (fun p => tileOf p z)))).map
            (fun _ => j)) := by
  induction js generalizing idx with
  | nil => simp
  | cons j rest ih =>
    rw [List.foldl_cons, ih, lineIdxAt_zoomFold, List.flatMap_cons, List.append_assoc]

theorem updateMarksIndex_some (g : GroupID) (M : List UserMark) (s : State)
    (h : alook g s.marks = some M) :
    updateMarksIndex tileOf upper g s
      = { s with marksIndex := cleanIndex ((List.range M.length).foldl
          (fun acc i => (zoomRange upper).foldl (fun acc2 z =>
            addMark (tileOf (M.getD i dummyMark).pivot z) g i acc2) acc)
          (clearGroupMarks g s.marksIndex)) } := by
  unfold updateMarksIndex
  rw [h]

theorem updateMarksIndex_none (g : GroupID) (s : State)
    (h : alook g s.marks = none) :
    updateMarksIndex tileOf upper g s
      = { s with marksIndex := clearGroupMarks g s.marksIndex } := by
  unfold updateMarksIndex
  rw [h]

theorem updateLinesIndex_some (g : GroupID) (L : List UserLine) (s : State)
    (h : alook g s.lines = some L) :
    updateLinesIndex tileOf upper g s
      = { s with marksIndex := cleanIndex ((List.range L.length).foldl
          (fun acc j => (zoomRange upper).foldl (fun acc2 z =>
            (((L.getD j dummyLine).points.map (fun p => tileOf p z)).dedup).foldl
              (fun acc3 t => addLine t g j acc3) acc2) acc)
          (clearGroupLines g s.marksIndex)) } := by
  unfold updateLinesIndex
  rw [h]

theorem updateLinesIndex_none (g : GroupID) (s : State)
    (h : alook g s.lines = none) :
    updateLinesIndex tileOf upper g s
      = { s with marksIndex := clearGroupLines g s.marksIndex } := by
  unfold updateLinesIndex
  rw [h]

theorem setUserMarks_fresh (g : GroupID) (M : List UserMark) (s : State)
    (hg : alook g s.marks = none) :
    setUserMarks tileOf upper g M s
      = { s with
          marks := s.marks ++ [(g, M)],
          marksIndex := cleanIndex ((List.range M.length).foldl
            (fun acc i => (zoomRange upper).foldl (fun acc2 z =>
              addMark (tileOf (M.getD i dummyMark).pivot z) g i acc2) acc)
            (clearGroupMarks g s.marksIndex)) } := by
  unfold setUserMarks
  have hins : ainsertNew g M s.marks = s.marks ++ [(g, M)] := by
    unfold ainsertNew
    rw [hg]
    rfl
  rw [hins]
  rw [updateMarksIndex_some tileOf upper g M _
    (show alook g (s.marks ++ [(g, M)]) = some M from alook_append_self g M s.marks hg)]

theorem setUserLines_fresh (g : GroupID) (L : List UserLine) (s : State)
    (hg : alook g s.lines = none) :
    setUserLines tileOf upper g L s
      = { s with
          lines := s.lines ++ [(g, L)],
          marksIndex := cleanIndex ((List.range L.length).foldl
            (fun acc j => (zoomRange upper).foldl (fun acc2 z =>
              (((L.getD j dummyLine).points.map (fun p => tileOf p z)).dedup).foldl
                (fun acc3 t => addLine t g j acc3) acc2) acc)
            (clearGroupLines g s.marksIndex)) } := by
  unfold setUserLines
  have hins : ainsertNew g L s.lines = s.lines ++ [(g, L)] := by
    unfold ainsertNew
    rw [hg]
    rfl
  rw [hins]
  rw [updateLinesIndex_some tileOf upper g L _
    (show alook g (s.lines ++ [(g, L)]) = some L from alook_append_self g L s.lines hg)]

theorem WFIdx_markFold (M : List UserMark) (g : GroupID) (is : List ℕ)
    {idx : MarksIndex} (h : WFIdx idx) :
    WFIdx (is.foldl (fun acc i => (zoomRange upper).foldl (fun acc2 z =>
        addMark (tileOf (M.getD i dummyMark).pivot z) g i acc2) acc) idx) :=
  foldl_preserve
    (fun a i ha => foldl_preserve (fun a2 z h2 => WFIdx_addMark _ g i h2) _ ha) _ h

theorem WFIdx_lineFold (L : List UserLine) (g : GroupID) (js : List ℕ)
    {idx : MarksIndex} (h : WFIdx idx) :
    WFIdx (js.foldl (fun acc j => (zoomRange upper).foldl (fun acc2 z =>
        (((L.getD j dummyLine).points.map (fun p => tileOf p z)).dedup).foldl
          (fun acc3 t => addLine t g j acc3) acc2) acc) idx) :=
  foldl_preserve
    (fun a j ha => foldl_preserve
      (fun a2 z h2 => foldl_preserve (fun a3 t h3 => WFIdx_addLine t g j h3) _ h2)
      _ ha) _ h

theorem markIdxAt_setUserMarks (g : GroupID) (M : List UserMark) (s : State)
    (hg : alook g s.marks = none) (hWF : WF s) (t : TileKey) :
    markIdxAt (setUserMarks tileOf upper g M s).marksIndex t g
      = (List.range M.length).flatMap (fun i =>
          ((zoomRange upper).filter
            (fun z => decide (tileOf (M.getD i dummyMark).pivot z = t))).map
            (fun _ => i)) := by
  rw [setUserMarks_fresh tileOf upper g M s hg]
  have hWF2 : WFIdx ((List.range M.length).foldl (fun acc i =>
      (zoomRange upper).foldl (fun acc2 z =>
        addMark (tileOf (M.getD i dummyMark).pivot z) g i acc2) acc)
      (clearGroupMarks g s.marksIndex)) :=
    WFIdx_markFold tileOf upper M g _ (WFIdx_clearGroupMarks g hWF)
  show markIdxAt (cleanIndex _) t g = _
  rw [markIdxAt_cleanIndex hWF2, markIdxAt_markFold, markIdxAt_clearGroupMarks,
    List.nil_append]

theorem lineIdxAt_setUserLines (g : GroupID) (L : List UserLine) (s : State)
    (hg : alook g s.lines = none) (hWF : WF s) (t : TileKey) :
    lineIdxAt (setUserLines tileOf upper g L s).marksIndex t g
      = (List.range L.length).flatMap (fun j =>
          ((zoomRange upper).filter (fun z =>
            decide (t ∈ (L.getD j dummyLine).points.map (fun p => tileOf p z)))).map
            (fun _ => j)) := by
  rw [setUserLines_fresh tileOf upper g L s hg]
  have hWF2 : WFIdx ((List.range L.length).foldl (fun acc j =>
      (zoomRange upper).foldl (fun acc2 z =>
        (((L.getD j dummyLine).points.map (fun p => tileOf p z)).dedup).foldl
          (fun acc3 t => addLine t g j acc3) acc2) acc)
      (clearGroupLines g s.marksIndex)) :=
    WFIdx_lineFold tileOf upper L g _ (WFIdx_clearGroupLines g hWF)
  show lineIdxAt (cleanIndex _) t g = _
  rw [lineIdxAt_cleanIndex hWF2, lineIdxAt_lineFold, lineIdxAt_clearGroupLines,
    List.nil_append]

theorem mem_zoomRange (z : ℕ) : z ∈ zoomRange upper ↔ 1 ≤ z ∧ z ≤ upper := by
  unfold zoomRange
  simp only [List.mem_map, List.mem_range]
  constructor
  · rintro ⟨a, ha, rfl⟩
    omega
  · rintro ⟨h1, h2⟩
    exact ⟨z - 1, by omega, by omega⟩

theorem nodup_zoomRange : (zoomRange upper).Nodup := by
  unfold zoomRange
  exact List.Nodup.map (fun a b hab => by omega) (List.nodup_range upper)

end FoldChar

section GenLemmas

theorem setVis_marks (g : GroupID) (b : Bool) (s : State) :
    (setGroupVisibility g b s).marks = s.marks := by
  unfold setGroupVisibility
  cases b <;> rfl

theorem setVis_lines (g : GroupID) (b : Bool) (s : State) :
    (setGroupVisibility g b s).lines = s.lines := by
  unfold setGroupVisibility
  cases b <;> rfl

theorem setVis_marksIndex (g : GroupID) (b : Bool) (s : State) :
    (setGroupVisibility g b s).marksIndex = s.marksIndex := by
  unfold setGroupVisibility
  cases b <;> rfl

theorem mem_setVis_vis (g h : GroupID) (b : Bool) (s : State) (hne : h ≠ g) :
    h ∈ (setGroupVisibility g b s).vis ↔ h ∈ s.vis := by
  unfold setGroupVisibility sinsert
  cases b
  · simp [List.mem_filter, hne]
  · by_cases hg : g ∈ s.vis <;> simp [hg, hne]

theorem goGroups_char (s : State) (t : TileKey) (gl : MarkIndexesGroups)
    (hcov : ∀ ge ∈ gl, (alook ge.1 s.marks).isSome) :
    goGroups s t gl
      = (gl.filterMap (fun ge => if ge.1 ∈ s.vis
          then some (ge.1,
            (⟨t, (alook ge.1 s.marks).getD [], ge.2.markIndexes⟩ : Payload))
          else none), true) := by
  induction gl with
  | nil => simp [goGroups]
  | cons ge rest ih =>
    have hhead := hcov ge (List.mem_cons_self ge rest)
    obtain ⟨rp, hrp⟩ := Option.isSome_iff_exists.mp hhead
    have htail : ∀ ge' ∈ rest, (alook ge'.1 s.marks).isSome :=
      fun ge' h' => hcov ge' (List.mem_cons_of_mem _ h')
    rw [List.filterMap_cons]
    by_cases hv : ge.1 ∈ s.vis
    · simp [goGroups, hrp, hv, ih htail]
    · simp [goGroups, hrp, hv, ih htail]

theorem goGroups_ok (s : State) (t : TileKey) (gl : MarkIndexesGroups)
    (hcov : ∀ ge ∈ gl, (alook ge.1 s.marks).isSome) :
    (goGroups s t gl).2 = true := by
  rw [goGroups_char s t gl hcov]

theorem filter_fst_filterMap_absent (s : State) (t : TileKey) (g : GroupID)
    (gl : MarkIndexesGroups) (habs : ∀ ge ∈ gl, ge.1 ≠ g) :
    ((gl.filterMap (fun ge => if ge.1 ∈ s.vis
        then some (ge.1,
          (⟨t, (alook ge.1 s.marks).getD [], ge.2.markIndexes⟩ : Payload))
        else none)).filter (fun x => decide (x.1 = g))) = [] := by
  induction gl with
  | nil => simp
  | cons ge rest ih =>
    have hne : ge.1 ≠ g := habs ge (List.mem_cons_self ge rest)
    have htail := fun ge' h' => habs ge' (List.mem_cons_of_mem ge h')
    rw [List.filterMap_cons]
    by_cases hv : ge.1 ∈ s.vis
    · rw [if_pos hv, List.filter_cons]
      simp [hne, ih htail]
    · rw [if_neg hv]
      exact ih htail

theorem filter_fst_filterMap_self (s : State) (t : TileKey) (g : GroupID)
    (gl : MarkIndexesGroups) (hnd : NodupKeys gl) {e : IndexesCollection}
    (he : alook g gl = some e) (hv : g ∈ s.vis) :
    ((gl.filterMap (fun ge => if ge.1 ∈ s.vis
        then some (ge.1,
          (⟨t, (alook ge.1 s.marks).getD [], ge.2.markIndexes⟩ : Payload))
        else none)).filter (fun x => decide (x.1 = g)))
      = [(g, ⟨t, (alook g s.marks).getD [], e.markIndexes⟩)] := by
  induction gl with
  | nil => simp [alook] at he
  | cons ge rest ih =>
    have hnm : ge.1 ∉ rest.map Prod.fst := (List.nodup_cons.mp hnd).1
    have hnd2 : NodupKeys rest := (List.nodup_cons.mp hnd).2
    rw [List.filterMap_cons]
    by_cases hge : ge.1 = g
    · have he2 : ge.2 = e := by
        have h0 : alook g (ge :: rest) = some ge.2 := by
          simp [alook, hge]
        rw [h0] at he
        exact Option.some.inj he
      have habs : ∀ ge2 ∈ rest, ge2.1 ≠ g := by
        intro ge2 h2 hk
        apply hnm
        rw [hge, ← hk]
        exact List.mem_map_of_mem Prod.fst h2
      have hvge : ge.1 ∈ s.vis := by rw [hge]; exact hv
      rw [if_pos hvge, List.filter_cons]
      have hdg : decide (ge.1 = g) = true := decide_eq_true hge
      rw [hdg]
      simp only [if_true]
      rw [filter_fst_filterMap_absent s t g rest habs]
      rw [hge, he2]
    · have he2 : alook g rest = some e := by
        have h0 : alook g (ge :: rest) = alook g rest := by
          simp [alook, hge]
        rw [h0] at he
        exact he
      have htail := ih hnd2 he2
      by_cases hvge : ge.1 ∈ s.vis
      · rw [if_pos hvge, List.filter_cons]
        have hdg : decide (ge.1 = g) = false := decide_eq_false hge
        rw [hdg]
        simp only [Bool.false_eq_true, if_false]
        exact htail
      · rw [if_neg hvge]
        exact htail

theorem goGroups_congr (s s2 : State) (hm : s2.marks = s.marks)
    (hv : s2.vis = s.vis) (t : TileKey) (gl : MarkIndexesGroups) :
    goGroups s2 t gl = goGroups s t gl := by
  induction gl with
  | nil => rfl
  | cons ge rest ih => simp [goGroups, hm, hv, ih]

theorem goGroups_map_lineIdx (s : State) (t : TileKey) (F : GroupID → List ℕ)
    (gl : MarkIndexesGroups) :
    goGroups s t (gl.map (fun ge => (ge.1, { ge.2 with lineIndexes := F ge.1 })))
      = goGroups s t gl := by
  induction gl with
  | nil => rfl
  | cons ge rest ih =>
    simp only [List.map_cons]
    cases hmk : alook ge.1 s.marks with
    | none => simp [goGroups, hmk]
    | some rp => by_cases hv : ge.1 ∈ s.vis <;> simp [goGroups, hmk, hv, ih]

theorem goGroups_cons_some (s : State) (t : TileKey)
    (ge : GroupID × IndexesCollection) (rest : MarkIndexesGroups)
    {rp : List UserMark} (hmk : alook ge.1 s.marks = some rp) :
    goGroups s t (ge :: rest)
      = if ge.1 ∈ s.vis
        then ((ge.1, (⟨t, rp, ge.2.markIndexes⟩ : Payload)) ::
                (goGroups s t rest).1, (goGroups s t rest).2)
        else goGroups s t rest := by
  simp [goGroups, hmk]

theorem goGroups_cons_none (s : State) (t : TileKey)
    (ge : GroupID × IndexesCollection) (rest : MarkIndexesGroups)
    (hmk : alook ge.1 s.marks = none) :
    goGroups s t (ge :: rest) = ([], false) := by
  simp [goGroups, hmk]

theorem goGroups_setVis (s : State) (g : GroupID) (b : Bool) (t : TileKey)
    (gl : MarkIndexesGroups) :
    ((goGroups (setGroupVisibility g b s) t gl).1.filter
        (fun e => decide (e.1 ≠ g))
      = (goGroups s t gl).1.filter (fun e => decide (e.1 ≠ g)))
    ∧ (goGroups (setGroupVisibility g b s) t gl).2 = (goGroups s t gl).2 := by
  induction gl with
  | nil => exact ⟨rfl, rfl⟩
  | cons ge rest ih =>
    cases hmk : alook ge.1 s.marks with
    | none =>
      have hmk2 : alook ge.1 (setGroupVisibility g b s).marks = none := by
        rw [setVis_marks]
        exact hmk
      rw [goGroups_cons_none s t ge rest hmk,
        goGroups_cons_none (setGroupVisibility g b s) t ge rest hmk2]
      exact ⟨rfl, rfl⟩
    | some rp =>
      have hmk2 : alook ge.1 (setGroupVisibility g b s).marks = some rp := by
        rw [setVis_marks]
        exact hmk
      rw [goGroups_cons_some s t ge rest hmk,
        goGroups_cons_some (setGroupVisibility g b s) t ge rest hmk2]
      by_cases hge : ge.1 = g
      · by_cases hv1 : ge.1 ∈ (setGroupVisibility g b s).vis <;>
          by_cases hv2 : ge.1 ∈ s.vis
        · rw [if_pos hv1, if_pos hv2]
          refine ⟨?_, ih.2⟩
          dsimp only
          simpa [hge] using ih.1
        · rw [if_pos hv1, if_neg hv2]
          refine ⟨?_, ih.2⟩
          dsimp only
          simpa [hge] using ih.1
        · rw [if_neg hv1, if_pos hv2]
          refine ⟨?_, ih.2⟩
          dsimp only
          simpa [hge] using ih.1
        · rw [if_neg hv1, if_neg hv2]
          exact ih
      · have hvEq := mem_setVis_vis g ge.1 b s hge
        by_cases hv2 : ge.1 ∈ s.vis
        · have hv1 := hvEq.mpr hv2
          rw [if_pos hv1, if_pos hv2]
          refine ⟨?_, ih.2⟩
          dsimp only
          simpa [hge] using ih.1
        · have hv1 := fun hh => hv2 (hvEq.mp hh)
          rw [if_neg hv1, if_neg hv2]
          exact ih

end GenLemmas

section MiscLemmas

theorem sorted_of_all_eq (l : List ℕ) (i : ℕ) (h : ∀ x ∈ l, x = i) :
    l.Sorted (· ≤ ·) := by
  induction l with
  | nil => simp
  | cons a rest ih =>
    rw [List.sorted_cons]
    refine ⟨?_, ih (fun x hx => h x (List.mem_cons_of_mem a hx))⟩
    intro b hb
    rw [h a (List.mem_cons_self a rest), h b (List.mem_cons_of_mem a hb)]

theorem sorted_flatMap_const {is : List ℕ} (h : is.Sorted (· < ·))
    (blk : ℕ → List ℕ) (hblk : ∀ i x, x ∈ blk i → x = i) :
    (is.flatMap blk).Sorted (· ≤ ·) := by
  induction is with
  | nil => simp
  | cons i rest ih =>
    rw [List.flatMap_cons]
    refine List.pairwise_append.mpr ⟨sorted_of_all_eq _ i (hblk i), ih h.of_cons, ?_⟩
    intro a ha b hb
    have ha2 := hblk i a ha
    obtain ⟨i2, hi2, hb2⟩ := List.mem_flatMap.mp hb
    have hb3 := hblk i2 b hb2
    rw [ha2, hb3]
    exact le_of_lt (List.rel_of_sorted_cons h i2 hi2)

theorem count_flatMap_le (is : List ℕ) (hnd : is.Nodup) (blk : ℕ → List ℕ)
    (hblk : ∀ i x, x ∈ blk i → x = i) (j : ℕ) (hlen : (blk j).length ≤ 1) :
    (is.flatMap blk).count j ≤ 1 := by
  induction is with
  | nil => simp
  | cons i rest ih =>
    rw [List.flatMap_cons, List.count_append]
    have hnd2 := (List.nodup_cons.mp hnd).2
    have hnm := (List.nodup_cons.mp hnd).1
    by_cases hij : i = j
    · subst hij
      have h0 : (rest.flatMap blk).count i = 0 := by
        rw [List.count_eq_zero]
        intro hmem
        obtain ⟨i2, hi2, hx⟩ := List.mem_flatMap.mp hmem
        obtain rfl := hblk i2 i hx
        exact hnm hi2
      have h1 : (blk i).count i ≤ (blk i).length := List.count_le_length i (blk i)
      omega
    · have h0 : (blk i).count j = 0 := by
        rw [List.count_eq_zero]
        intro hmem
        exact hij ((hblk i j hmem).symm)
      rw [h0]
      simpa using ih hnd2

theorem length_filter_le_one {zs : List ℕ} (hnd : zs.Nodup) (P : ℕ → Bool)
    (huniq : ∀ z1 z2, P z1 = true → P z2 = true → z1 = z2) :
    (zs.filter P).length ≤ 1 := by
  induction zs with
  | nil => simp
  | cons z rest ih =>
    have hnd2 := (List.nodup_cons.mp hnd).2
    have hnm := (List.nodup_cons.mp hnd).1
    rw [List.filter_cons]
    by_cases hp : P z = true
    · rw [if_pos hp]
      have h0 : rest.filter P = [] := by
        rw [List.filter_eq_nil_iff]
        intro a ha hpa
        exact hnm ((huniq z a hp hpa) ▸ ha)
      rw [h0]
      simp
    · rw [if_neg hp]
      simpa using ih hnd2

theorem entry_of_markIdxAt_mem {idx : MarksIndex} {t : TileKey} {g : GroupID}
    {i : ℕ} (h : i ∈ markIdxAt idx t g) :
    ∃ gm e, alook t idx = some gm ∧ alook g gm = some e
      ∧ e.markIndexes = markIdxAt idx t g := by
  cases ht : alook t idx with
  | none =>
    exfalso
    unfold markIdxAt entryAt at h
    rw [ht] at h
    simp [emptyIC] at h
  | some gm =>
    cases hg : alook g gm with
    | none =>
      exfalso
      unfold markIdxAt entryAt at h
      rw [ht] at h
      simp only [Option.some_bind] at h
      rw [hg] at h
      simp [emptyIC] at h
    | some e =>
      refine ⟨gm, e, rfl, hg, ?_⟩
      unfold markIdxAt entryAt
      rw [ht]
      simp only [Option.some_bind]
      rw [hg]
      rfl

theorem filter_ne_idem (g : GroupID) (l : List GroupID) :
    (l.filter (fun x => decide (x ≠ g))).filter (fun x => decide (x ≠ g))
      = l.filter (fun x => decide (x ≠ g)) := by
  rw [List.filter_eq_self]
  intro a ha
  have h0 := List.of_mem_filter ha
  simpa using h0

theorem clearUserMarks_def (tileOf : Point → ℕ → TileKey) (upper : ℕ)
    (g : GroupID) (s : State) :
    clearUserMarks tileOf upper g s
      = { marks := aerase g s.marks, lines := aerase g s.lines,
          vis := s.vis.filter (fun x => decide (x ≠ g)),
          marksIndex := clearGroupLines g (clearGroupMarks g s.marksIndex) } := by
  unfold clearUserMarks
  rw [updateMarksIndex_none tileOf upper g _ (alook_aerase_self g s.marks)]
  rw [updateLinesIndex_none tileOf upper g _ (alook_aerase_self g s.lines)]

theorem clearBoth (g : GroupID) (idx : MarksIndex) :
    clearGroupLines g (clearGroupMarks g idx)
      = idx.map (fun te => (te.1, amodify g (fun _ => emptyIC) te.2)) := by
  unfold clearGroupLines clearGroupMarks
  rw [List.map_map]
  apply List.map_congr_left
  intro te hte
  dsimp only [Function.comp]
  rw [amodify_amodify]
  apply congrArg
  apply amodify_congr
  intro v
  rfl

theorem clearBoth_idem (g : GroupID) (idx : MarksIndex) :
    clearGroupLines g (clearGroupMarks g (clearGroupLines g (clearGroupMarks g idx)))
      = clearGroupLines g (clearGroupMarks g idx) := by
  rw [clearBoth, clearBoth, List.map_map]
  apply List.map_congr_left
  intro te hte
  dsimp only [Function.comp]
  rw [amodify_amodify]
  apply congrArg
  apply amodify_congr
  intro v
  rfl

theorem clearUserMarks_idem (tileOf : Point → ℕ → TileKey) (upper : ℕ)
    (g : GroupID) (s : State) :
    clearUserMarks tileOf upper g (clearUserMarks tileOf upper g s)
      = clearUserMarks tileOf upper g s := by
  rw [clearUserMarks_def tileOf upper g s, clearUserMarks_def]
  rw [aerase_idem, aerase_idem, filter_ne_idem, clearBoth_idem]

theorem clearUserMarks_noop (tileOf : Point → ℕ → TileKey) (upper : ℕ)
    (g : GroupID) (s : State)
    (h2 : g ∉ s.vis) (h3 : alook g s.marks = none) (h4 : alook g s.lines = none)
    (h5 : ∀ te ∈ s.marksIndex, ∀ ge ∈ te.2, ge.1 ≠ g) :
    clearUserMarks tileOf upper g s = s := by
  rw [clearUserMarks_def]
  have hm : aerase g s.marks = s.marks :=
    aerase_of_absent g s.marks ((alook_eq_none_iff g s.marks).mp h3)
  have hl : aerase g s.lines = s.lines :=
    aerase_of_absent g s.lines ((alook_eq_none_iff g s.lines).mp h4)
  have hv : s.vis.filter (fun x => decide (x ≠ g)) = s.vis := by
    rw [List.filter_eq_self]
    intro x hx
    exact decide_eq_true (fun hh => h2 (hh ▸ hx))
  have hcm : clearGroupMarks g s.marksIndex = s.marksIndex := by
    unfold clearGroupMarks
    have hpt : ∀ te ∈ s.marksIndex,
        (te.1, amodify g (fun e => { e with markIndexes := [] }) te.2) = te := by
      intro te hte
      rw [amodify_of_absent g _ te.2 (h5 te hte)]
    rw [List.map_congr_left hpt, List.map_id']
  have hcl : clearGroupLines g s.marksIndex = s.marksIndex := by
    unfold clearGroupLines
    have hpt : ∀ te ∈ s.marksIndex,
        (te.1, amodify g (fun e => { e with lineIndexes := [] }) te.2) = te := by
      intro te hte
      rw [amodify_of_absent g _ te.2 (h5 te hte)]
    rw [List.map_congr_left hpt, List.map_id']
  rw [hm, hl, hv, hcm, hcl]

theorem foldG_flushFn {α : Type} (tileOf : Point → ℕ → TileKey) (upper : ℕ)
    (gen : Generator α) (ops : List Op) :
    (ops.foldl (applyOpG tileOf upper) gen).flushFn = gen.flushFn := by
  induction ops generalizing gen with
  | nil => rfl
  | cons op rest ih =>
    rw [List.foldl_cons, ih]
    rfl

theorem foldG_st {α : Type} (tileOf : Point → ℕ → TileKey) (upper : ℕ)
    (gen : Generator α) (ops : List Op) :
    (ops.foldl (applyOpG tileOf upper) gen).st
      = applyOps tileOf upper gen.st ops := by
  induction ops generalizing gen with
  | nil => rfl
  | cons op rest ih =>
    rw [List.foldl_cons, ih]
    rfl

end MiscLemmas

section GenCongr

theorem alook_map_keyed {K V W : Type} [DecidableEq K] (F : K → V → W)
    (l : List (K × V)) (k : K) :
    alook k (l.map (fun e => (e.1, F e.1 e.2))) = (alook k l).map (F k) := by
  induction l with
  | nil => simp [alook]
  | cons e rest ih =>
    by_cases h : e.1 = k
    · simp [alook, h]
    · simp [alook, h, ih]

theorem generate_congr (s s2 : State) (hm : s2.marks = s.marks)
    (hv : s2.vis = s.vis) (hi : s2.marksIndex = s.marksIndex) (t : TileKey) :
    generate s2 t = generate s t := by
  unfold generate
  rw [hi]
  cases hti : alook t s.marksIndex with
  | none => rfl
  | some gl => exact goGroups_congr s s2 hm hv t gl

theorem alook_overwriteLineIdx (f : TileKey → GroupID → List ℕ) (s : State)
    (t : TileKey) :
    alook t (overwriteLineIdx f s).marksIndex
      = (alook t s.marksIndex).map (fun gm => gm.map
          (fun ge => (ge.1, { ge.2 with lineIndexes := f t ge.1 }))) := by
  unfold overwriteLineIdx
  dsimp only
  generalize s.marksIndex = idx
  induction idx with
  | nil => simp [alook]
  | cons te rest ih =>
    by_cases h : te.1 = t
    · simp [alook, h]
    · simp [alook, h, ih]

theorem generate_overwriteLineIdx (f : TileKey → GroupID → List ℕ) (s : State)
    (t : TileKey) :
    generate (overwriteLineIdx f s) t = generate s t := by
  have hl := alook_overwriteLineIdx f s t
  unfold generate
  rw [hl]
  cases hti : alook t s.marksIndex with
  | none => rfl
  | some gl =>
    simp only [Option.map_some']
    rw [goGroups_congr s (overwriteLineIdx f s) rfl rfl t]
    exact goGroups_map_lineIdx s t (f t) gl

theorem goGroups_setVis_absent (s : State) (g : GroupID) (b : Bool)
    (t : TileKey) (gl : MarkIndexesGroups) (habs : ∀ ge ∈ gl, ge.1 ≠ g) :
    goGroups (setGroupVisibility g b s) t gl = goGroups s t gl := by
  induction gl with
  | nil => rfl
  | cons ge rest ih =>
    have hne : ge.1 ≠ g := habs ge (List.mem_cons_self ge rest)
    have htail := fun ge2 h2 => habs ge2 (List.mem_cons_of_mem ge h2)
    cases hmk : alook ge.1 s.marks with
    | none =>
      have hmk2 : alook ge.1 (setGroupVisibility g b s).marks = none := by
        rw [setVis_marks]
        exact hmk
      rw [goGroups_cons_none s t ge rest hmk,
        goGroups_cons_none (setGroupVisibility g b s) t ge rest hmk2]
    | some rp =>
      have hmk2 : alook ge.1 (setGroupVisibility g b s).marks = some rp := by
        rw [setVis_marks]
        exact hmk
      rw [goGroups_cons_some s t ge rest hmk,
        goGroups_cons_some (setGroupVisibility g b s) t ge rest hmk2]
      have hvEq := mem_setVis_vis g ge.1 b s hne
      by_cases hv2 : ge.1 ∈ s.vis
      · rw [if_pos (hvEq.mpr hv2), if_pos hv2, ih htail]
      · rw [if_neg (fun hh => hv2 (hvEq.mp hh)), if_neg hv2, ih htail]

end GenCongr

section Claims

/-- C1: the claim says a second `ReplaceMarks(g, M2)` leaves only M2-derived
positions in the index and silences the sink on tiles that held only
M1-derived positions.  The code evaluated at the failing input shows the
opposite: `m_marks.insert` does not overwrite, so after replacing group 0's
single mark at pivot 0 by a single mark at pivot 5, the stored collection is
still M1, tile `(0, 1)` still holds the M1 position, the M2 tile `(5, 1)` was
never indexed, and `Generate` on the M1 tile still flushes group 0 once. -/
theorem c1_replace_marks_keeps_old :
    alook 0 sC1.marks = some [⟨0⟩]
    ∧ markIdxAt sC1.marksIndex (0, 1) 0 = [0]
    ∧ alook (5, 1) sC1.marksIndex = none
    ∧ (generate sC1 (0, 1)).1 = [(0, ⟨(0, 1), [⟨0⟩], [0]⟩)]
    ∧ (generate sC1 (0, 1)).2 = true := by decide

/-- C2: the claim says that after every mutating operation no tile entry has
an empty group map and no (tile, group) entry has both lists empty.  Evaluated
at the failing input: after `ReplaceMarks(0, [mark]); Clear(0)` the entry
`((0,1), 0)` survives with both lists empty (the early return in
`UpdateMarksIndex`/`UpdateLinesIndex` skips `CleanIndex`), and after a further
`ReplaceMarks(1, ·)` — which does run `CleanIndex` — tile `(0,1)` survives
with an empty group map, because `CleanIndex` prunes empty tiles before it
prunes empty group entries. -/
theorem c2_empty_entries_survive :
    alook (0, 1) sC2.marksIndex = some [(0, ⟨[], []⟩)]
    ∧ alook (0, 1) sC2b.marksIndex = some [] := by decide

/-- C3: the claim says `Clear(g)` removes every index entry referencing g and
that a later `SetVisibility(g, true); Generate` flushes nothing for g.
Evaluated at the failing input: after `ReplaceMarks(0, ·); Clear(0)` the
collections and visibility are gone but the index still holds an (empty)
entry for group 0 at tile `(0,1)`, and `Generate` on that tile dereferences
the missing mark collection (`*m_marks[0]` is a null pointer) instead of
benignly producing nothing. -/
theorem c3_clear_leaves_trace :
    alook 0 sC3.marks = none ∧ alook 0 sC3.lines = none ∧ 0 ∈ sC3.vis
    ∧ alook (0, 1) sC3.marksIndex = some [(0, ⟨[], []⟩)]
    ∧ generate sC3 (0, 1) = ([], false) := by decide

/-- C4 (counterexample): group 0 is visible, owns a line collection, and tile
`(0,1)` stores the non-empty line-position list `[0]` for it — exactly the
premise of the claim — yet `Generate` on that tile hands nothing to the sink:
it faults on the unchecked `*m_marks[0]` dereference, because the generation
path handles only marks and a lines-only group has no mark collection. -/
theorem c4_lines_not_flushed_cex :
    lineIdxAt sC4.marksIndex (0, 1) 0 = [0]
    ∧ alook 0 sC4.lines = some [⟨[0]⟩]
    ∧ 0 ∈ sC4.vis
    ∧ generate sC4 (0, 1) = ([], false) := by decide

/-- C4 (amended): `Generate` never reads line data at all: its outcome —
flush list and termination flag — is unchanged when the line-collection map
is replaced by anything and when every stored line-position list in the index
is overwritten arbitrarily. -/
theorem c4_generate_reads_no_line_data (s : State) (t : TileKey)
    (L2 : List (GroupID × List UserLine)) (f : TileKey → GroupID → List ℕ) :
    generate { s with lines := L2 } t = generate s t
    ∧ generate (overwriteLineIdx f s) t = generate s t := by
  exact ⟨generate_congr s { s with lines := L2 } rfl rfl rfl t,
    generate_overwriteLineIdx f s t⟩

/-- C5 (counterexample): with a lines-only group 0 sharing tile `(0,1)`,
`ReplaceMarks(1, [mark at 0])` on the fresh group 1 correctly indexes mark
position 0 at tile `(0,1)` and group 1 is visible, but `Generate((0,1))`
invokes the sink zero times for group 1 — not exactly once as claimed —
because the loop faults on group 0's missing mark collection first. -/
theorem c5_generate_crash_cex :
    markIdxAt sC5.marksIndex (0, 1) 1 = [0]
    ∧ alook 1 sC5.marks = some [⟨0⟩]
    ∧ 1 ∈ sC5.vis
    ∧ (generate sC5 (0, 1)).1.filter (fun e => decide (e.1 = 1)) = []
    ∧ (generate sC5 (0, 1)).2 = false := by decide

/-- C5 (amended): after `ReplaceMarks(g, M)` for a group g with no prior
collections, for every mark at position i in M and zoom z in `[1, upper]`,
the `(TileOf(pivot, z), g)` entry's mark list contains i, every such list is
in ascending collection order, and — provided every group listed in that
tile's entry currently has a mark collection — `Generate` on the tile
completes and flushes exactly one payload for g, built from g's collection M
and that stored position list. -/
theorem c5_marks_rebuild_correct (tileOf : Point → ℕ → TileKey) (upper : ℕ)
    (s : State) (g : GroupID) (M : List UserMark) (i z : ℕ)
    (hWF : WF s) (hm : alook g s.marks = none) (hl : alook g s.lines = none)
    (hi : i < M.length) (hz1 : 1 ≤ z) (hz2 : z ≤ upper) (hvis : g ∈ s.vis)
    (hcov : ∀ ge ∈ (alook (tileOf (M.getD i dummyMark).pivot z)
          (setUserMarks tileOf upper g M s).marksIndex).getD [],
        (alook ge.1 (setUserMarks tileOf upper g M s).marks).isSome) :
    i ∈ markIdxAt (setUserMarks tileOf upper g M s).marksIndex
        (tileOf (M.getD i dummyMark).pivot z) g
    ∧ (∀ t, (markIdxAt (setUserMarks tileOf upper g M s).marksIndex t g).Sorted
        (· ≤ ·))
    ∧ (generate (setUserMarks tileOf upper g M s)
          (tileOf (M.getD i dummyMark).pivot z)).2 = true
    ∧ (generate (setUserMarks tileOf upper g M s)
          (tileOf (M.getD i dummyMark).pivot z)).1.filter
          (fun e => decide (e.1 = g))
        = [(g, ⟨tileOf (M.getD i dummyMark).pivot z, M,
            markIdxAt (setUserMarks tileOf upper g M s).marksIndex
              (tileOf (M.getD i dummyMark).pivot z) g⟩)] := by
  have hchar := markIdxAt_setUserMarks tileOf upper g M s hm hWF
  have hmem : i ∈ markIdxAt (setUserMarks tileOf upper g M s).marksIndex
      (tileOf (M.getD i dummyMark).pivot z) g := by
    rw [hchar]
    apply List.mem_flatMap.mpr
    refine ⟨i, List.mem_range.mpr hi, ?_⟩
    apply List.mem_map.mpr
    refine ⟨z, ?_, rfl⟩
    rw [List.mem_filter]
    exact ⟨(mem_zoomRange upper z).mpr ⟨hz1, hz2⟩, decide_eq_true rfl⟩
  have hsorted : ∀ t,
      (markIdxAt (setUserMarks tileOf upper g M s).marksIndex t g).Sorted
        (· ≤ ·) := by
    intro t
    rw [hchar t]
    apply sorted_flatMap_const (List.sorted_lt_range M.length)
    intro i2 x hx
    obtain ⟨z2, hz2f, hxx⟩ := List.mem_map.mp hx
    exact hxx.symm
  obtain ⟨gm, e, hgm, hge, hemk⟩ := entry_of_markIdxAt_mem hmem
  have hfresh := setUserMarks_fresh tileOf upper g M s hm
  have hmarks2 : (setUserMarks tileOf upper g M s).marks = s.marks ++ [(g, M)] := by
    rw [hfresh]
  have hvis2 : (setUserMarks tileOf upper g M s).vis = s.vis := by rw [hfresh]
  have hWF2 : WFIdx (setUserMarks tileOf upper g M s).marksIndex := by
    rw [hfresh]
    exact WFIdx_cleanIndex
      (WFIdx_markFold tileOf upper M g _ (WFIdx_clearGroupMarks g hWF))
  have hnd : NodupKeys gm :=
    hWF2.2 (tileOf (M.getD i dummyMark).pivot z, gm) (alook_mem hgm)
  have hcov2 : ∀ ge2 ∈ gm,
      (alook ge2.1 (setUserMarks tileOf upper g M s).marks).isSome := by
    intro ge2 hgein
    apply hcov
    rw [hgm]
    exact hgein
  have halookM : alook g (setUserMarks tileOf upper g M s).marks = some M := by
    rw [hmarks2]
    exact alook_append_self g M s.marks hm
  have hvg : g ∈ (setUserMarks tileOf upper g M s).vis := by
    rw [hvis2]
    exact hvis
  have hgen : generate (setUserMarks tileOf upper g M s)
      (tileOf (M.getD i dummyMark).pivot z)
      = goGroups (setUserMarks tileOf upper g M s)
          (tileOf (M.getD i dummyMark).pivot z) gm := by
    unfold generate
    rw [hgm]
  have hchar2 := goGroups_char (setUserMarks tileOf upper g M s)
    (tileOf (M.getD i dummyMark).pivot z) gm hcov2
  refine ⟨hmem, hsorted, ?_, ?_⟩
  · rw [hgen, hchar2]
  · rw [hgen, hchar2]
    dsimp only
    rw [filter_fst_filterMap_self (setUserMarks tileOf upper g M s)
      (tileOf (M.getD i dummyMark).pivot z) g gm hnd hge hvg]
    rw [halookM, hemk]
    simp only [Option.getD_some]

/-- C5 witness at a concrete input: the empty state with group 0 visible,
`ReplaceMarks(0, [mark at pivot 0])`, zoom 1. -/
theorem c5_marks_rebuild_correct_witness :
    (WF sVis0 ∧ alook 0 sVis0.marks = none ∧ alook 0 sVis0.lines = none
      ∧ (0 : ℕ) < ([⟨0⟩] : List UserMark).length ∧ (1 : ℕ) ≤ 1 ∧ (1 : ℕ) ≤ 1
      ∧ 0 ∈ sVis0.vis
      ∧ ∀ ge ∈ (alook (tc (([⟨0⟩] : List UserMark).getD 0 dummyMark).pivot 1)
            (setUserMarks tc 1 0 [⟨0⟩] sVis0).marksIndex).getD [],
          (alook ge.1 (setUserMarks tc 1 0 [⟨0⟩] sVis0).marks).isSome)
    ∧ (0 ∈ markIdxAt (setUserMarks tc 1 0 [⟨0⟩] sVis0).marksIndex
          (tc (([⟨0⟩] : List UserMark).getD 0 dummyMark).pivot 1) 0
      ∧ (∀ t, (markIdxAt (setUserMarks tc 1 0 [⟨0⟩] sVis0).marksIndex t 0).Sorted
          (· ≤ ·))
      ∧ (generate (setUserMarks tc 1 0 [⟨0⟩] sVis0)
            (tc (([⟨0⟩] : List UserMark).getD 0 dummyMark).pivot 1)).2 = true
      ∧ (generate (setUserMarks tc 1 0 [⟨0⟩] sVis0)
            (tc (([⟨0⟩] : List UserMark).getD 0 dummyMark).pivot 1)).1.filter
            (fun e => decide (e.1 = 0))
          = [(0, ⟨tc (([⟨0⟩] : List UserMark).getD 0 dummyMark).pivot 1, [⟨0⟩],
              markIdxAt (setUserMarks tc 1 0 [⟨0⟩] sVis0).marksIndex
                (tc (([⟨0⟩] : List UserMark).getD 0 dummyMark).pivot 1) 0⟩)]) :=
  ⟨⟨by decide, by decide, by decide, by decide, by decide, by decide, by decide,
      by decide⟩,
    c5_marks_rebuild_correct tc 1 sVis0 0 [⟨0⟩] 0 1 (by decide) (by decide)
      (by decide) (by decide) (by decide) (by decide) (by decide) (by decide)⟩

/-- C6: after `ReplaceLines(g, L)` for a group g with no prior collections,
for every line at position j in L and every tile t: j is stored at most once
in t's line list for g, and it is stored there exactly when some vertex of
the line maps to t at some zoom level in `[1, upper]` — a tile crossed by a
segment without a vertex in it is never registered.  (The hypothesis `hinj`
states that the external tile keys determine their zoom level, true of the
real `TileKey`, which carries `m_zoomLevel`.) -/
theorem c6_lines_vertex_tiles (tileOf : Point → ℕ → TileKey) (upper : ℕ)
    (s : State) (g : GroupID) (L : List UserLine) (j : ℕ) (t : TileKey)
    (hinj : ∀ p q z w, tileOf p z = tileOf q w → z = w)
    (hWF : WF s) (hm : alook g s.marks = none) (hl : alook g s.lines = none)
    (hj : j < L.length) :
    (lineIdxAt (setUserLines tileOf upper g L s).marksIndex t g).count j ≤ 1
    ∧ (j ∈ lineIdxAt (setUserLines tileOf upper g L s).marksIndex t g
        ↔ ∃ z, 1 ≤ z ∧ z ≤ upper
            ∧ ∃ v ∈ (L.getD j dummyLine).points, tileOf v z = t) := by
  have hchar := lineIdxAt_setUserLines tileOf upper g L s hl hWF t
  constructor
  · rw [hchar]
    refine count_flatMap_le _ (List.nodup_range L.length) _ ?_ j ?_
    · intro j2 x hx
      obtain ⟨z2, hz2f, hxx⟩ := List.mem_map.mp hx
      exact hxx.symm
    · rw [List.length_map]
      apply length_filter_le_one (nodup_zoomRange upper)
      intro z1 z2 h1 h2
      have hm1 : t ∈ (L.getD j dummyLine).points.map (fun p => tileOf p z1) :=
        of_decide_eq_true h1
      have hm2 : t ∈ (L.getD j dummyLine).points.map (fun p => tileOf p z2) :=
        of_decide_eq_true h2
      obtain ⟨v1, hv1, hvt1⟩ := List.mem_map.mp hm1
      obtain ⟨v2, hv2, hvt2⟩ := List.mem_map.mp hm2
      exact hinj v1 v2 z1 z2 (hvt1.trans hvt2.symm)
  · rw [hchar]
    constructor
    · intro hmem
      obtain ⟨j2, hj2, hx⟩ := List.mem_flatMap.mp hmem
      obtain ⟨z2, hzf, hxx⟩ := List.mem_map.mp hx
      have hjj : j2 = j := hxx
      subst hjj
      rw [List.mem_filter] at hzf
      have hz := (mem_zoomRange upper z2).mp hzf.1
      have hmem2 : t ∈ (L.getD j2 dummyLine).points.map (fun p => tileOf p z2) :=
        of_decide_eq_true hzf.2
      obtain ⟨v, hv, hvt⟩ := List.mem_map.mp hmem2
      exact ⟨z2, hz.1, hz.2, v, hv, hvt⟩
    · rintro ⟨z, hz1, hz2, v, hv, hvt⟩
      apply List.mem_flatMap.mpr
      refine ⟨j, List.mem_range.mpr hj, ?_⟩
      apply List.mem_map.mpr
      refine ⟨z, ?_, rfl⟩
      rw [List.mem_filter]
      refine ⟨(mem_zoomRange upper z).mpr ⟨hz1, hz2⟩, decide_eq_true ?_⟩
      exact List.mem_map.mpr ⟨v, hv, hvt⟩

/-- C6 witness at a concrete input: one line with vertices 0 and 5, one zoom
level, queried at tile `(0, 1)`. -/
theorem c6_lines_vertex_tiles_witness :
    ((∀ p q z w, tc p z = tc q w → z = w) ∧ WF initState
      ∧ alook 0 initState.marks = none ∧ alook 0 initState.lines = none
      ∧ (0 : ℕ) < ([⟨[0, 5]⟩] : List UserLine).length)
    ∧ ((lineIdxAt (setUserLines tc 1 0 [⟨[0, 5]⟩] initState).marksIndex
          (0, 1) 0).count 0 ≤ 1
      ∧ (0 ∈ lineIdxAt (setUserLines tc 1 0 [⟨[0, 5]⟩] initState).marksIndex
            (0, 1) 0
          ↔ ∃ z, 1 ≤ z ∧ z ≤ 1
              ∧ ∃ v ∈ (([⟨[0, 5]⟩] : List UserLine).getD 0 dummyLine).points,
                  tc v z = (0, 1))) :=
  ⟨⟨fun p q z w h => congrArg Prod.snd h, by decide, by decide, by decide,
      by decide⟩,
    c6_lines_vertex_tiles tc 1 initState 0 [⟨[0, 5]⟩] 0 (0, 1)
      (fun p q z w h => congrArg Prod.snd h) (by decide) (by decide)
      (by decide) (by decide)⟩

/-- C7: any sequence of `SetVisibility` calls leaves the index, the mark
collections and the line collections exactly as they were; a single toggle of
group g changes nothing about the flushes `Generate` performs for other
groups, nor whether it terminates normally. -/
theorem c7_visibility_pure_toggle :
    ∀ (s : State) (ops : List (GroupID × Bool)),
      ((ops.foldl (fun a gb => setGroupVisibility gb.1 gb.2 a) s).marksIndex
          = s.marksIndex
        ∧ (ops.foldl (fun a gb => setGroupVisibility gb.1 gb.2 a) s).marks
            = s.marks
        ∧ (ops.foldl (fun a gb => setGroupVisibility gb.1 gb.2 a) s).lines
            = s.lines)
      ∧ ∀ (g : GroupID) (b : Bool) (t : TileKey),
          (generate (setGroupVisibility g b s) t).1.filter
              (fun e => decide (e.1 ≠ g))
            = (generate s t).1.filter (fun e => decide (e.1 ≠ g))
          ∧ (generate (setGroupVisibility g b s) t).2 = (generate s t).2 := by
  intro s ops
  constructor
  · induction ops generalizing s with
    | nil => exact ⟨rfl, rfl, rfl⟩
    | cons gb rest ih =>
      rw [List.foldl_cons]
      have h := ih (setGroupVisibility gb.1 gb.2 s)
      exact ⟨h.1.trans (setVis_marksIndex gb.1 gb.2 s),
        h.2.1.trans (setVis_marks gb.1 gb.2 s),
        h.2.2.trans (setVis_lines gb.1 gb.2 s)⟩
  · intro g b t
    unfold generate
    rw [setVis_marksIndex]
    cases hti : alook t s.marksIndex with
    | none => exact ⟨rfl, rfl⟩
    | some gl => exact goGroups_setVis s g b t gl

/-- C8: `Generate` on a tile absent from the index flushes nothing and
terminates normally; `Clear` on a group with no visibility, no collections
and no index entries is a literal no-op; `Clear` is idempotent on every
state and group; and `SetVisibility` on such a never-populated group is
benign too: `SetVisibility(g, false)` is a literal no-op, and either toggle
leaves the collections and the index untouched and every `Generate` outcome
(flush list and termination flag, on every tile) unchanged. -/
theorem c8_benign_noops (s : State) (t : TileKey) (g : GroupID)
    (h1 : alook t s.marksIndex = none) (h2 : g ∉ s.vis)
    (h3 : alook g s.marks = none) (h4 : alook g s.lines = none)
    (h5 : ∀ te ∈ s.marksIndex, ∀ ge ∈ te.2, ge.1 ≠ g) :
    generate s t = ([], true)
    ∧ (∀ (tileOf : Point → ℕ → TileKey) (upper : ℕ),
        clearUserMarks tileOf upper g s = s)
    ∧ (∀ (tileOf : Point → ℕ → TileKey) (upper : ℕ) (s2 : State) (g2 : GroupID),
        clearUserMarks tileOf upper g2 (clearUserMarks tileOf upper g2 s2)
          = clearUserMarks tileOf upper g2 s2)
    ∧ setGroupVisibility g false s = s
    ∧ ((setGroupVisibility g true s).marks = s.marks
        ∧ (setGroupVisibility g true s).lines = s.lines
        ∧ (setGroupVisibility g true s).marksIndex = s.marksIndex)
    ∧ ∀ (b : Bool) (t2 : TileKey),
        generate (setGroupVisibility g b s) t2 = generate s t2 := by
  refine ⟨?_, ?_, ?_, ?_, ?_, ?_⟩
  · unfold generate
    rw [h1]
  · intro tileOf upper
    exact clearUserMarks_noop tileOf upper g s h2 h3 h4 h5
  · intro tileOf upper s2 g2
    exact clearUserMarks_idem tileOf upper g2 s2
  · have hfalse : setGroupVisibility g false s
        = { s with vis := s.vis.filter (fun x => decide (x ≠ g)) } := rfl
    have hv : s.vis.filter (fun x => decide (x ≠ g)) = s.vis := by
      rw [List.filter_eq_self]
      intro x hx
      exact decide_eq_true (fun hh => h2 (hh ▸ hx))
    rw [hfalse, hv]
  · exact ⟨setVis_marks g true s, setVis_lines g true s, setVis_marksIndex g true s⟩
  · intro b t2
    unfold generate
    rw [setVis_marksIndex]
    cases hti : alook t2 s.marksIndex with
    | none => rfl
    | some gl =>
      exact goGroups_setVis_absent s g b t2 gl
        (fun ge hge => h5 (t2, gl) (alook_mem hti) ge hge)

/-- C8 witness: tile `(5, 5)` is absent from `sC1`'s index and group 9 was
never populated there. -/
theorem c8_benign_noops_witness :
    (alook (5, 5) sC1.marksIndex = none ∧ 9 ∉ sC1.vis
      ∧ alook 9 sC1.marks = none ∧ alook 9 sC1.lines = none
      ∧ ∀ te ∈ sC1.marksIndex, ∀ ge ∈ te.2, ge.1 ≠ 9)
    ∧ (generate sC1 (5, 5) = ([], true)
      ∧ (∀ (tileOf : Point → ℕ → TileKey) (upper : ℕ),
          clearUserMarks tileOf upper 9 sC1 = sC1)
      ∧ (∀ (tileOf : Point → ℕ → TileKey) (upper : ℕ) (s2 : State) (g2 : GroupID),
          clearUserMarks tileOf upper g2 (clearUserMarks tileOf upper g2 s2)
            = clearUserMarks tileOf upper g2 s2)
      ∧ setGroupVisibility 9 false sC1 = sC1
      ∧ ((setGroupVisibility 9 true sC1).marks = sC1.marks
          ∧ (setGroupVisibility 9 true sC1).lines = sC1.lines
          ∧ (setGroupVisibility 9 true sC1).marksIndex = sC1.marksIndex)
      ∧ ∀ (b : Bool) (t2 : TileKey),
          generate (setGroupVisibility 9 b sC1) t2 = generate sC1 t2) :=
  ⟨⟨by decide, by decide, by decide, by decide, by decide⟩,
    c8_benign_noops sC1 (5, 5) 9 (by decide) (by decide) (by decide) (by decide)
      (by decide)⟩

/-- C9: constructing the generator from a null flush sink fails (the
`ASSERT` is a fatal precondition: no generator is produced); from a non-null
sink it succeeds with the empty state, the stored sink survives every later
mutating operation, and every later `Generate` delivers exactly through that
stored sink. -/
theorem c9_null_sink_fatal :
    ∀ (α : Type) (f : GroupID → Payload → α) (tileOf : Point → ℕ → TileKey)
      (upper : ℕ) (ops : List Op) (t : TileKey),
      mkGenerator (none : Option (GroupID → Payload → α)) = none
      ∧ mkGenerator (some f) = some ⟨f, initState⟩
      ∧ (ops.foldl (applyOpG tileOf upper) ⟨f, initState⟩).flushFn = f
      ∧ generateFlush (ops.foldl (applyOpG tileOf upper) ⟨f, initState⟩) t
          = ((generate (applyOps tileOf upper initState ops) t).1.map
              (fun e => f e.1 e.2),
             (generate (applyOps tileOf upper initState ops) t).2) := by
  intro α f tileOf upper ops t
  refine ⟨rfl, rfl, foldG_flushFn tileOf upper _ ops, ?_⟩
  unfold generateFlush
  rw [foldG_st, foldG_flushFn]

/-- C10: `Generate` binds `*m_marks[groupId]` for every group listed in the
tile's entry before checking visibility, so it completes normally whenever
every listed group has a mark collection; and at a concrete reachable state a
group indexed solely through lines — and not even visible — already makes the
dereference fault. -/
theorem c10_generate_deref_precondition :
    (∀ (s : State) (t : TileKey),
        (∀ ge ∈ (alook t s.marksIndex).getD [],
            (alook ge.1 s.marks).isSome) →
        (generate s t).2 = true)
    ∧ (0 ∉ sC10.vis ∧ alook 0 sC10.marks = none
        ∧ alook (0, 1) sC10.marksIndex = some [(0, ⟨[], [0]⟩)]
        ∧ (generate sC10 (0, 1)).2 = false) := by
  constructor
  · intro s t hcov
    unfold generate
    cases hti : alook t s.marksIndex with
    | none => rfl
    | some gl =>
      apply goGroups_ok
      intro ge hge
      apply hcov
      rw [hti]
      exact hge
  · exact ⟨by decide, by decide, by decide, by decide⟩

/-- C10 witness: at `sC1` every group listed under tile `(0, 1)` has a mark
collection, so `Generate` completes normally. -/
theorem c10_generate_deref_precondition_witness :
    (∀ ge ∈ (alook (0, 1) sC1.marksIndex).getD [],
        (alook ge.1 sC1.marks).isSome)
    ∧ (generate sC1 (0, 1)).2 = true :=
  ⟨by decide, c10_generate_deref_precondition.1 sC1 (0, 1) (by decide)⟩

end Claims

end UserMarkGen
